import Mathlib

/-!
Verification of the ViewsYT repository's proxy-pool and session-orchestration
logic against its natural-language specification.

The JavaScript sources are shallowly embedded as Lean definitions:

* `ProxyManager` and its operations mirror the `ProxyManager` class of
  `src/unnamed/part_002` (rotation with failure skipping and bulk reset).
* `JProxy`, `removeDuplicateProxies`, `fetchProxiesIndexJs` mirror the proxy
  ingestion pipelines of `src/unnamed/part_000` and `src/index.js`.
* `retryFetch`, `watchVideo` mirror the bounded-retry watch session of
  `src/index.js` (`watchVideo`), with network outcomes given by oracles.
* `Orch`, `loopIter`, `mainLoop` mirror the orchestrator loop of
  `src/index.js` (`main`), with session and fetch results given by oracles.

JavaScript `Map`s with a `get(k) || 0` read are modelled as total functions
defaulting to `0`; JavaScript `Set`s are modelled as duplicate-free lists.
-/

namespace ViewsYT

/-- State of the `ProxyManager` class (src/unnamed/part_002).  `proxyFailures`
models the JS `Map` together with the `get(proxy) || 0` default read;
`workingProxies` models the JS `Set` as an insertion-ordered list. -/
structure ProxyManager where
  proxies : List String
  currentIndex : Nat
  proxyFailures : String → Nat
  workingProxies : List String
  maxFailures : Nat

/-- The `ProxyManager` constructor: `currentIndex = 0`, empty failure map,
empty working set, `maxFailures = 3`. -/
def mkProxyManager (userProxies : List String) : ProxyManager :=
  { proxies := userProxies
    currentIndex := 0
    proxyFailures := fun _ => 0
    workingProxies := []
    maxFailures := 3 }

/-- Read of `this.proxyFailures.get(proxy) || 0`. -/
def failuresOf (pm : ProxyManager) (p : String) : Nat :=
  pm.proxyFailures p

/-- JS `Set.add`: appends the element unless already present. -/
def setAdd (s : List String) (p : String) : List String :=
  if p ∈ s then s else s ++ [p]

/-- The skip-scan loop inside `getNextProxy`: reads `proxies[idx]`, advances
`idx := (idx + 1) % proxies.length`, and returns the first proxy whose failure
count is below `maxF`.  `fuel` plays the role of `maxAttempts - attempts`;
the second component is the value of `currentIndex` when the loop stops. -/
def scanNext (ps : List String) (f : String → Nat) (maxF : Nat) :
    Nat → Nat → Option String × Nat
  | idx, 0 => (none, idx)
  | idx, fuel + 1 =>
    let proxy := ps.getD idx ""
    let idx2 := (idx + 1) % ps.length
    if f proxy < maxF then (some proxy, idx2)
    else scanNext ps f maxF idx2 fuel

/-- `ProxyManager.getNextProxy` (src/unnamed/part_002, lines 422-451): returns
`null` on an empty pool; otherwise scans up to `proxies.length` positions for a
proxy below the failure threshold; if none is found it performs the bulk reset
(clears all failure counters, restores every proxy to the working set) and
returns `proxies[0]`. -/
def ProxyManager.getNextProxy (pm : ProxyManager) : Option String × ProxyManager :=
  if pm.proxies.length = 0 then (none, pm)
  else
    match scanNext pm.proxies (failuresOf pm) pm.maxFailures pm.currentIndex
        pm.proxies.length with
    | (some p, idx2) => (some p, { pm with currentIndex := idx2 })
    | (none, idx2) =>
      let pm2 : ProxyManager :=
        { pm with currentIndex := idx2
                  proxyFailures := fun _ => 0
                  workingProxies := pm.proxies.foldl setAdd [] }
      (if 0 < pm.proxies.length then some (pm.proxies.getD 0 "") else none, pm2)

/-- `ProxyManager.reportProxyFailure`: increments the failure counter and, once
it reaches `maxFailures`, deletes the proxy from the working set. -/
def ProxyManager.reportProxyFailure (pm : ProxyManager) (p : String) : ProxyManager :=
  let f := failuresOf pm p + 1
  let pm1 : ProxyManager :=
    { pm with proxyFailures := fun q => if q = p then f else pm.proxyFailures q }
  if pm.maxFailures ≤ f then
    { pm1 with workingProxies := pm1.workingProxies.erase p }
  else pm1

/-- `ProxyManager.reportProxySuccess`: re-adds the proxy to the working set and
clears its failure counter. -/
def ProxyManager.reportProxySuccess (pm : ProxyManager) (p : String) : ProxyManager :=
  { pm with workingProxies := setAdd pm.workingProxies p
            proxyFailures := fun q => if q = p then 0 else pm.proxyFailures q }

/-- `ProxyManager.getWorkingProxyCount`: size of the working set. -/
def ProxyManager.getWorkingProxyCount (pm : ProxyManager) : Nat :=
  pm.workingProxies.length

/-- `ProxyManager.getProxyCount`. -/
def ProxyManager.getProxyCount (pm : ProxyManager) : Nat :=
  pm.proxies.length

/-- Iterates `getNextProxy` `n` times, collecting the returned proxies. -/
def runNext : ProxyManager → Nat → List (Option String) × ProxyManager
  | pm, 0 => ([], pm)
  | pm, n + 1 =>
    let r := pm.getNextProxy
    let rest := runNext r.2 n
    (r.1 :: rest.1, rest.2)

/-- Three consecutive `reportProxyFailure` calls on the same proxy. -/
def failThrice (pm : ProxyManager) (p : String) : ProxyManager :=
  ((pm.reportProxyFailure p).reportProxyFailure p).reportProxyFailure p

/-- Pool operations that may run between a proxy's exclusion and the next
refresh or bulk reset. -/
inductive PMOp where
  | fail (q : String)
  | success (q : String)
  | next

/-- Applies one pool operation (the state component of `getNextProxy`). -/
def applyOp (pm : ProxyManager) : PMOp → ProxyManager
  | .fail q => pm.reportProxyFailure q
  | .success q => pm.reportProxySuccess q
  | .next => pm.getNextProxy.2

/-- Applies a sequence of pool operations. -/
def applyOps (pm : ProxyManager) (ops : List PMOp) : ProxyManager :=
  ops.foldl applyOp pm

/-- An operation is safe for excluded proxy `p` when it is not a success report
for `p` itself and, if it is a rotation step, the pool still has a working
proxy (so `getNextProxy` does not perform its bulk reset). -/
def OpSafe (p : String) (pm : ProxyManager) : PMOp → Prop
  | .success q => q ≠ p
  | .next => ∃ q ∈ pm.proxies, failuresOf pm q < pm.maxFailures
  | .fail _ => True

/-- All operations along a trace are safe at the states where they run. -/
def SafeOps (p : String) : ProxyManager → List PMOp → Prop
  | _, [] => True
  | pm, op :: ops => OpSafe p pm op ∧ SafeOps p (applyOp pm op) ops

/-- Proxy `p` is excluded from the working view: failure counter at or above
the threshold and absent from the working set. -/
def Excluded (pm : ProxyManager) (p : String) : Prop :=
  pm.maxFailures ≤ failuresOf pm p ∧ p ∉ pm.workingProxies

/-- Exclusion together with the cursor-validity invariant of the pool. -/
def PMInv (pm : ProxyManager) (p : String) : Prop :=
  Excluded pm p ∧ (pm.proxies = [] ∨ pm.currentIndex < pm.proxies.length)

/-! Proxy ingestion: records and deduplication (src/unnamed/part_000 and
src/index.js, both named `fetchProxies`). -/

/-- A proxy record as built by the `fetchProxies` pipelines. -/
structure JProxy where
  protocol : String
  host : String
  port : Nat
  country : String
  anonymity : String
deriving DecidableEq, Repr

/-- The identity key `protocol://host:port` used for deduplication. -/
def proxyKey (p : JProxy) : String :=
  p.protocol ++ "://" ++ p.host ++ ":" ++ toString p.port

/-- Splitting helper: accumulates the current field until the separator. -/
def splitCharAux (c : Char) : List Char → List Char → List (List Char)
  | [], acc => [acc.reverse]
  | d :: rest, acc =>
    if d = c then acc.reverse :: splitCharAux c rest []
    else splitCharAux c rest (d :: acc)

/-- JS `String.split(c)` for a one-character separator (so `"".split(c)`
is `[""]`). -/
def splitChar (c : Char) (s : String) : List String :=
  (splitCharAux c s.data []).map fun l => String.mk l

/-- JS `String.trim()`: strips leading and trailing whitespace. -/
def trimJs (s : String) : String :=
  String.mk (((s.data.dropWhile Char.isWhitespace).reverse.dropWhile
    Char.isWhitespace).reverse)

/-- JS `String.toLowerCase()`. -/
def lowerJs (s : String) : String :=
  String.mk (s.data.map Char.toLower)

/-- JS `parseInt`: reads the leading decimal digits, `NaN` (here `none`) when
there are none. -/
def parseIntJs (s : String) : Option Nat :=
  let ds := s.data.takeWhile Char.isDigit
  if ds = [] then none
  else some (ds.foldl (fun n c => n * 10 + (c.toNat - 48)) 0)

/-- A record of the GeoNode API response (`response.data.data` entries). -/
structure GeoRecord where
  ip : String
  port : Nat
  country : String
  anonymityLevel : String
  protocols : List String
deriving DecidableEq, Repr

/-- The GeoNode mapping in `src/index.js` `fetchProxies`: one record per
protocol listed for the entry. -/
def geoToProxies (rs : List GeoRecord) : List JProxy :=
  (rs.map fun r =>
    r.protocols.map fun proto =>
      { protocol := lowerJs proto
        host := r.ip
        port := r.port
        country := r.country
        anonymity := r.anonymityLevel }).flatten

/-- `CONFIG.SUPPORTED_PROTOCOLS` of `src/index.js`. -/
def SUPPORTED_PROTOCOLS : List String := ["http", "https", "socks4", "socks5"]

/-- One ProxyScrape line `host:port` parsed into a record
(`proxy.split(':')[0]`, `parseInt(proxy.split(':')[1])`; a failed `parseInt`
is modelled as port `0`). -/
def parseProxyLine (protocol line : String) : JProxy :=
  { protocol := protocol
    host := ((splitChar ':' line).headD "")
    port := ((parseIntJs ((splitChar ':' line).getD 1 "")).getD 0)
    country := "Unknown"
    anonymity := "Unknown" }

/-- The ProxyScrape response parsing in `src/index.js` `fetchProxies`:
`split('\n').filter(Boolean).map(trim).filter(includes ':').map(record)`. -/
def parseScrape (protocol body : String) : List JProxy :=
  ((((splitChar '\n' body).filter (fun l => l ≠ "")).map trimJs).filter
    (fun l => l.data.contains ':')).map (parseProxyLine protocol)

/-- The pool built by `src/index.js` `fetchProxies`, as a function of the
GeoNode records and the per-protocol ProxyScrape response bodies: the GeoNode
proxies followed by the ProxyScrape proxies for each supported protocol, with
no deduplication.  The source's final `sort(() => Math.random() - 0.5)`
shuffle permutes this list and is not modelled (it preserves which identities
occur and how often). -/
def fetchProxiesIndexJs (geo : List GeoRecord) (scrapeBody : String → String) :
    List JProxy :=
  geoToProxies geo ++
    (SUPPORTED_PROTOCOLS.map fun proto => parseScrape proto (scrapeBody proto)).flatten

/-- The duplicate-removal loop of `src/unnamed/part_000` `fetchProxies`
(lines 458-468): walks the list keeping a set of already-seen identity keys. -/
def dedupGo : List JProxy → List String → List JProxy
  | [], _ => []
  | p :: rest, seen =>
    if proxyKey p ∈ seen then dedupGo rest seen
    else p :: dedupGo rest (proxyKey p :: seen)

/-- Deduplication by identity key as performed by `src/unnamed/part_000`
`fetchProxies` before its shuffle. -/
def removeDuplicateProxies (l : List JProxy) : List JProxy :=
  dedupGo l []

/-! Watch session (src/index.js `watchVideo`, `quickCheckProxy`,
`getProxyAgent`). -/

/-- `CONFIG.MAX_RETRIES` of `src/index.js`. -/
def MAX_RETRIES : Nat := 3

/-- The fixed `sleep(1000)` between fetch attempts in `watchVideo`. -/
def RETRY_SLEEP_MS : Nat := 1000

/-- The bounded-retry fetch loop of `watchVideo`
(`for (attempt = 0; attempt < MAX_RETRIES && !success; attempt++)`):
`outcome i` tells whether the `i`-th `axios.get` succeeds.  Returns the final
success flag, the number of fetch attempts issued, and the list of inter-retry
sleep durations performed.  A failure on the last attempt re-throws (no sleep),
which the session surfaces as failure. -/
def retryFetchAux (outcome : Nat → Bool) (maxR : Nat) :
    Nat → Nat → Bool × Nat × List Nat
  | _, 0 => (false, 0, [])
  | attempt, fuel + 1 =>
    if outcome attempt then (true, 1, [])
    else if attempt = maxR - 1 then (false, 1, [])
    else
      let r := retryFetchAux outcome maxR (attempt + 1) fuel
      (r.1, r.2.1 + 1, RETRY_SLEEP_MS :: r.2.2)

/-- The retry loop entered at `attempt = 0`; the fuel `maxR` encodes the
`attempt < maxR` loop bound. -/
def retryFetch (outcome : Nat → Bool) (maxR : Nat) : Bool × Nat × List Nat :=
  retryFetchAux outcome maxR 0 maxR

/-- Environment of one watch session: the quick-check result (the JS
`quickCheckProxy` always resolves to a boolean), whether `getProxyAgent`
returns a non-null agent, and the primary-fetch outcomes. -/
structure SessionEnv where
  probeOk : Bool
  agentOk : Bool
  fetchOutcome : Nat → Bool

/-- Observable trace of one watch session: the boolean reported to the
orchestrator, how many primary fetches were issued, and the inter-retry
delays performed. -/
structure SessionTrace where
  result : Bool
  fetchAttempts : Nat
  retryDelays : List Nat
deriving DecidableEq, Repr

/-- The `try` block of `watchVideo`: returns `false` early when the quick
check fails or the agent is null, and throws (modelled as `Except.error`
carrying the attempt trace) when the primary fetch exhausts its retries. -/
def watchVideoTry (env : SessionEnv) : Except (Nat × List Nat) (Bool × Nat × List Nat) :=
  if env.probeOk = false then .ok (false, 0, [])
  else if env.agentOk = false then .ok (false, 0, [])
  else
    match retryFetch env.fetchOutcome MAX_RETRIES with
    | (true, n, d) => .ok (true, n, d)
    | (false, n, d) => .error (n, d)

/-- `watchVideo` as observed by the orchestrator: the surrounding
`try`/`catch` turns every thrown error into the return value `false`. -/
def watchVideo (env : SessionEnv) : SessionTrace :=
  match watchVideoTry env with
  | .ok (b, n, d) => ⟨b, n, d⟩
  | .error (n, d) => ⟨false, n, d⟩

/-! Orchestrator (src/index.js `main`, lines 290-337). -/

/-- `CONFIG.MAX_PROXIES_TO_TRY` of `src/index.js`. -/
def MAX_PROXIES_TO_TRY : Nat := 100

/-- The hardcoded consecutive-failure refresh threshold (`consecutiveFailures
>= 20`) of `src/index.js` `main`. -/
def FAILURE_REFRESH_THRESHOLD : Nat := 20

/-- Mutable state of the `main` loop.  `sessions` and `fetches` count the
`watchVideo` and `fetchProxies` calls made so far; they index the oracles. -/
structure Orch where
  views : Nat
  idx : Nat
  tried : Nat
  consec : Nat
  proxies : List String
  sessions : Nat
  fetches : Nat
deriving DecidableEq, Repr

/-- A mid-run `fetchProxies` refresh: replaces the pool, zeroes the cursor and
the `triedProxies`/`consecutiveFailures` counters (the same block runs for both
refresh triggers in `main`). -/
def refreshState (fr : Nat → List String) (s : Orch) : Orch :=
  { s with proxies := fr s.fetches, idx := 0, tried := 0, consec := 0,
           fetches := s.fetches + 1 }

/-- The per-session bookkeeping of one loop body: update `successfulViews` and
`consecutiveFailures` from the `watchVideo` result, advance the cursor modulo
the pool length, and bump `triedProxies`. -/
def sessionStep (sr : Nat → Bool) (s : Orch) : Orch :=
  let s1 := if sr s.sessions then { s with views := s.views + 1, consec := 0 }
            else { s with consec := s.consec + 1 }
  { s1 with idx := (s1.idx + 1) % s1.proxies.length, tried := s1.tried + 1,
            sessions := s1.sessions + 1 }

/-- One iteration of the `while (successfulViews < viewCount)` body, with the
guard already known to hold.  `sr t` is the result of the `t`-th `watchVideo`
call and `fr t` the result of the `t`-th mid-run `fetchProxies` call.  `none`
models the iteration throwing: with an empty pool, `proxies[currentProxyIndex]`
is `undefined` and reading `proxy.protocol` raises a `TypeError` that escapes
`main` to its top-level `catch`. -/
def loopIter (sr : Nat → Bool) (fr : Nat → List String) (s : Orch) : Option Orch :=
  if FAILURE_REFRESH_THRESHOLD ≤ s.consec then some (refreshState fr s)
  else
    match s.proxies[s.idx]? with
    | none => none
    | some _ =>
      if MAX_PROXIES_TO_TRY ≤ (sessionStep sr s).tried then
        some (refreshState fr (sessionStep sr s))
      else some (sessionStep sr s)

/-- Outcome of running the orchestrator loop with bounded fuel. -/
inductive RunOutcome where
  | finished (s : Orch)
  | crashed (s : Orch)
  | outOfFuel (s : Orch)
deriving DecidableEq, Repr

/-- The state carried by a run outcome. -/
def RunOutcome.state : RunOutcome → Orch
  | .finished s => s
  | .crashed s => s
  | .outOfFuel s => s

/-- Whether the run ended in the uncaught-exception outcome. -/
def RunOutcome.isCrashed : RunOutcome → Bool
  | .crashed _ => true
  | _ => false

/-- The `while (successfulViews < viewCount)` loop of `main`: exits normally
when the guard fails, crashes when an iteration throws, and reports
`outOfFuel` if the iteration budget is exhausted first. -/
def mainLoop (target : Nat) (sr : Nat → Bool) (fr : Nat → List String) :
    Nat → Orch → RunOutcome
  | 0, s => .outOfFuel s
  | fuel + 1, s =>
    if s.views < target then
      match loopIter sr fr s with
      | none => .crashed s
      | some s2 => mainLoop target sr fr fuel s2
    else .finished s

/-! Concrete pool states used by the witness theorems. -/

/-- A three-proxy pool with all counters at zero, cursor at the start. -/
def pmRoundRobin : ProxyManager :=
  ⟨["a", "b", "c"], 0, fun _ => 0, ["a", "b", "c"], 3⟩

/-- A two-proxy pool with every proxy at the failure threshold. -/
def pmAllDead : ProxyManager := ⟨["a", "b"], 0, fun _ => 3, [], 3⟩

/-- A two-proxy pool at the threshold with the cursor on the second proxy. -/
def pmAllDeadAt1 : ProxyManager := ⟨["a", "b"], 1, fun _ => 3, [], 3⟩

/-- A fresh two-proxy pool for the exclusion witness. -/
def pmFresh : ProxyManager := ⟨["a", "b"], 0, fun _ => 0, ["a", "b"], 3⟩

/-- An emptied pool (contents replaced by an empty record list). -/
def pmEmptied : ProxyManager := ⟨[], 0, fun _ => 0, [], 3⟩

/-- Session environment in which every primary fetch times out. -/
def envTimeout : SessionEnv := ⟨true, true, fun _ => false⟩

/-- Session environment whose quick-check probe fails. -/
def envProbeFail : SessionEnv := ⟨false, true, fun _ => true⟩

/-- Orchestrator start state: one dead proxy in the pool. -/
def c9Start : Orch := ⟨0, 0, 0, 0, ["http://1.2.3.4:80"], 0, 0⟩

/-- Orchestrator start state for the counter-invariant witness. -/
def c4Start : Orch := ⟨0, 0, 0, 0, ["p"], 0, 0⟩

/-! Lemmas about the skip scan of `getNextProxy`. -/

theorem scanNext_step_working (ps : List String) (f : String → Nat) (maxF idx fuel : Nat)
    (h : f (ps.getD idx "") < maxF) :
    scanNext ps f maxF idx (fuel + 1) = (some (ps.getD idx ""), (idx + 1) % ps.length) := by
  simp only [scanNext]
  rw [if_pos h]

theorem scanNext_all_dead (ps : List String) (f : String → Nat) (maxF : Nat)
    (hall : ∀ q ∈ ps, maxF ≤ f q) :
    ∀ fuel idx, idx < ps.length →
      scanNext ps f maxF idx fuel = (none, (idx + fuel) % ps.length) := by
  intro fuel
  induction fuel with
  | zero => intro idx hidx; simp [scanNext, Nat.mod_eq_of_lt hidx]
  | succ n ih =>
    intro idx hidx
    have hlen : 0 < ps.length := lt_of_le_of_lt (Nat.zero_le _) hidx
    have hmem : ps.getD idx "" ∈ ps := by
      rw [List.getD_eq_getElem _ _ hidx]; exact List.getElem_mem _
    have hdead : ¬ f (ps.getD idx "") < maxF := not_lt.mpr (hall _ hmem)
    have hidx2 : (idx + 1) % ps.length < ps.length := Nat.mod_lt _ hlen
    have harith : idx + 1 + n = idx + (n + 1) := by omega
    simp only [scanNext]
    rw [if_neg hdead, ih _ hidx2, Nat.mod_add_mod, harith]

theorem scanNext_some_spec (ps : List String) (f : String → Nat) (maxF : Nat) :
    ∀ fuel idx r j, scanNext ps f maxF idx fuel = (some r, j) →
      f r < maxF ∧ (0 < ps.length → j < ps.length) := by
  intro fuel
  induction fuel with
  | zero => intro idx r j h; simp [scanNext] at h
  | succ n ih =>
    intro idx r j h
    simp only [scanNext] at h
    by_cases hc : f (ps.getD idx "") < maxF
    · rw [if_pos hc] at h
      simp only [Prod.mk.injEq, Option.some.injEq] at h
      obtain ⟨h1, h2⟩ := h
      subst h1; subst h2
      exact ⟨hc, fun hlen => Nat.mod_lt _ hlen⟩
    · rw [if_neg hc] at h
      exact ih _ _ _ h

theorem scanNext_none_dead (ps : List String) (f : String → Nat) (maxF : Nat) :
    ∀ fuel idx j, idx < ps.length → scanNext ps f maxF idx fuel = (none, j) →
      ∀ k, k < fuel → maxF ≤ f (ps.getD ((idx + k) % ps.length) "") := by
  intro fuel
  induction fuel with
  | zero => intro idx j _ _ k hk; exact absurd hk (Nat.not_lt_zero k)
  | succ n ih =>
    intro idx j hidx h k hk
    have hlen : 0 < ps.length := lt_of_le_of_lt (Nat.zero_le _) hidx
    simp only [scanNext] at h
    by_cases hc : f (ps.getD idx "") < maxF
    · rw [if_pos hc] at h
      exact absurd h (by simp)
    · rw [if_neg hc] at h
      match k with
      | 0 => simpa [Nat.mod_eq_of_lt hidx] using not_lt.mp hc
      | k' + 1 =>
        have hrec := ih ((idx + 1) % ps.length) j (Nat.mod_lt _ hlen) h k' (by omega)
        rw [Nat.mod_add_mod] at hrec
        have harith : idx + 1 + k' = idx + (k' + 1) := by omega
        rwa [harith] at hrec

theorem scanNext_succeeds (ps : List String) (f : String → Nat) (maxF idx : Nat)
    (hidx : idx < ps.length) (hex : ∃ q ∈ ps, f q < maxF) :
    ∃ r j, scanNext ps f maxF idx ps.length = (some r, j) := by
  obtain ⟨q, hq, hfq⟩ := hex
  match h : scanNext ps f maxF idx ps.length with
  | (some r, j) => exact ⟨r, j, rfl⟩
  | (none, j) =>
    exfalso
    have hlen : 0 < ps.length := List.length_pos.mpr (List.ne_nil_of_mem hq)
    obtain ⟨m, hm, hgm⟩ := List.mem_iff_getElem.mp hq
    have hk : (m + ps.length - idx) % ps.length < ps.length := Nat.mod_lt _ hlen
    have hdead := scanNext_none_dead ps f maxF ps.length idx j hidx h
      ((m + ps.length - idx) % ps.length) hk
    have harith : (idx + (m + ps.length - idx) % ps.length) % ps.length = m := by
      rw [Nat.add_mod_mod]
      have h2 : idx + (m + ps.length - idx) = m + ps.length := by omega
      rw [h2, Nat.add_mod_right, Nat.mod_eq_of_lt hm]
    rw [harith] at hdead
    rw [List.getD_eq_getElem _ _ hm, hgm] at hdead
    exact absurd hfq (not_lt.mpr hdead)

/-! Lemmas about `getNextProxy`. -/

theorem getNextProxy_of_working (pm : ProxyManager)
    (hidx : pm.currentIndex < pm.proxies.length)
    (hw : failuresOf pm (pm.proxies.getD pm.currentIndex "") < pm.maxFailures) :
    pm.getNextProxy = (some (pm.proxies.getD pm.currentIndex ""),
      { pm with currentIndex := (pm.currentIndex + 1) % pm.proxies.length }) := by
  have hlen : 0 < pm.proxies.length := lt_of_le_of_lt (Nat.zero_le _) hidx
  obtain ⟨n, hn⟩ : ∃ n, pm.proxies.length = n + 1 := ⟨pm.proxies.length - 1, by omega⟩
  have hstep : scanNext pm.proxies (failuresOf pm) pm.maxFailures pm.currentIndex
      pm.proxies.length =
      (some (pm.proxies.getD pm.currentIndex ""),
        (pm.currentIndex + 1) % pm.proxies.length) := by
    conv_lhs => rw [hn]
    exact scanNext_step_working _ _ _ _ _ hw
  have hne : ¬ pm.proxies.length = 0 := by omega
  simp [ProxyManager.getNextProxy, hne, hstep]

theorem runNext_all_working :
    ∀ (n : Nat) (pm : ProxyManager), pm.currentIndex < pm.proxies.length →
      (∀ p ∈ pm.proxies, failuresOf pm p < pm.maxFailures) →
      runNext pm n =
        ((List.range n).map fun j =>
            some (pm.proxies.getD ((pm.currentIndex + j) % pm.proxies.length) ""),
          { pm with currentIndex := (pm.currentIndex + n) % pm.proxies.length }) := by
  intro n
  induction n with
  | zero =>
    intro pm hidx _
    simp [runNext, Nat.mod_eq_of_lt hidx]
  | succ n ih =>
    intro pm hidx hw
    have hlen : 0 < pm.proxies.length := lt_of_le_of_lt (Nat.zero_le _) hidx
    have hmem : pm.proxies.getD pm.currentIndex "" ∈ pm.proxies := by
      rw [List.getD_eq_getElem _ _ hidx]; exact List.getElem_mem _
    have hstep := getNextProxy_of_working pm hidx (hw _ hmem)
    have hidx2 : (pm.currentIndex + 1) % pm.proxies.length < pm.proxies.length :=
      Nat.mod_lt _ hlen
    have ih2 := ih { pm with currentIndex := (pm.currentIndex + 1) % pm.proxies.length }
      hidx2 hw
    simp only [runNext]
    rw [hstep, ih2]
    simp only [Prod.mk.injEq]
    refine ⟨?_, ?_⟩
    · rw [List.range_succ_eq_map, List.map_cons, List.map_map]
      congr 1
      · simp [Nat.mod_eq_of_lt hidx]
      · apply List.map_congr_left
        intro j _
        simp only [Function.comp_apply]
        rw [Nat.mod_add_mod]
        have harith : pm.currentIndex + 1 + j = pm.currentIndex + (j + 1) := by omega
        rw [harith]
    · rw [Nat.mod_add_mod]
      have harith : pm.currentIndex + 1 + n = pm.currentIndex + (n + 1) := by omega
      rw [harith]

theorem count_map_some (l : List String) (p : String) :
    (l.map some).count (some p) = l.count p := by
  induction l with
  | nil => rfl
  | cons a l ih => simp [List.count_cons, ih]

theorem count_one_of_nodup (l : List String) (p : String) (hnd : l.Nodup) (hp : p ∈ l) :
    l.count p = 1 := by
  induction l with
  | nil => simp at hp
  | cons a l ih =>
    rcases List.mem_cons.mp hp with h | h
    · subst h
      have : l.count p = 0 := List.count_eq_zero.mpr (by
        intro hmem; exact (List.nodup_cons.mp hnd).1 hmem)
      simp [List.count_cons, this]
    · have hne : a ≠ p := by
        rintro rfl; exact (List.nodup_cons.mp hnd).1 h
      have := ih (List.nodup_cons.mp hnd).2 h
      simp [List.count_cons, this, hne]

theorem count_rotate (l : List String) (n : Nat) (hn : n ≤ l.length) (p : String) :
    (l.rotate n).count p = l.count p := by
  rw [List.rotate_eq_drop_append_take hn, List.count_append, Nat.add_comm,
    ← List.count_append, List.take_append_drop]

/-- C1: in a pool of size `N` (identities distinct, as ingestion
deduplication guarantees) where every proxy's failure count is below
`maxFailures`, `N` consecutive `getNextProxy` calls return the proxies in
rotation order starting at the cursor, return each identity exactly once, and
advance the cursor by one position modulo `N` on each call. -/
theorem c1_round_robin (pm : ProxyManager) (N : Nat) (hlen : pm.proxies.length = N)
    (hidx : pm.currentIndex < N) (hnd : pm.proxies.Nodup)
    (hw : ∀ p ∈ pm.proxies, failuresOf pm p < pm.maxFailures) :
    (∀ i, i < N → (runNext pm N).1.getD i none
        = some (pm.proxies.getD ((pm.currentIndex + i) % N) "")) ∧
    (∀ p ∈ pm.proxies, (runNext pm N).1.count (some p) = 1) ∧
    (∀ i, i ≤ N → (runNext pm i).2.currentIndex = (pm.currentIndex + i) % N) := by
  subst hlen
  have hlen0 : 0 < pm.proxies.length := lt_of_le_of_lt (Nat.zero_le _) hidx
  have hrun := runNext_all_working pm.proxies.length pm hidx hw
  refine ⟨?_, ?_, ?_⟩
  · intro i hi
    rw [hrun]
    have hi2 : i < ((List.range pm.proxies.length).map fun j =>
        some (pm.proxies.getD ((pm.currentIndex + j) % pm.proxies.length) "")).length := by
      simpa using hi
    rw [List.getD_eq_getElem _ _ hi2]
    simp
  · intro p hp
    rw [hrun]
    have hrot : ((List.range pm.proxies.length).map fun j =>
        some (pm.proxies.getD ((pm.currentIndex + j) % pm.proxies.length) ""))
        = (pm.proxies.rotate pm.currentIndex).map some := by
      apply List.ext_getElem
      · simp [List.length_rotate]
      · intro i h1 h2
        simp only [List.getElem_map, List.getElem_range, List.getElem_rotate]
        have hcomm : pm.currentIndex + i = i + pm.currentIndex := Nat.add_comm _ _
        rw [hcomm, List.getD_eq_getElem _ _ (Nat.mod_lt _ hlen0)]
    rw [hrot, count_map_some, count_rotate _ _ (le_of_lt hidx),
      count_one_of_nodup _ _ hnd hp]
  · intro i _
    rw [runNext_all_working i pm hidx hw]

/-- Witness for C1 at a concrete three-proxy pool with zeroed counters. -/
theorem c1_round_robin_witness :
    (pmRoundRobin.proxies.length = 3 ∧ pmRoundRobin.currentIndex < 3 ∧
      pmRoundRobin.proxies.Nodup ∧
      (∀ p ∈ pmRoundRobin.proxies, failuresOf pmRoundRobin p < pmRoundRobin.maxFailures)) ∧
    ((∀ i, i < 3 → (runNext pmRoundRobin 3).1.getD i none
        = some (pmRoundRobin.proxies.getD ((pmRoundRobin.currentIndex + i) % 3) "")) ∧
    (∀ p ∈ pmRoundRobin.proxies, (runNext pmRoundRobin 3).1.count (some p) = 1) ∧
    (∀ i, i ≤ 3 → (runNext pmRoundRobin i).2.currentIndex
        = (pmRoundRobin.currentIndex + i) % 3)) :=
  ⟨⟨rfl, by decide, by decide, by decide⟩,
    c1_round_robin pmRoundRobin 3 rfl (by decide) (by decide) (by decide)⟩

/-! Bulk reset lemmas. -/

theorem mem_setAdd (s : List String) (a p : String) :
    p ∈ setAdd s a ↔ p ∈ s ∨ p = a := by
  unfold setAdd
  split
  · rename_i h
    constructor
    · exact Or.inl
    · rintro (hp | rfl)
      · exact hp
      · exact h
  · simp [List.mem_append]

theorem mem_foldl_setAdd (l : List String) :
    ∀ (s : List String) (p : String), p ∈ s ∨ p ∈ l → p ∈ l.foldl setAdd s := by
  induction l with
  | nil =>
    intro s p h
    rcases h with h | h
    · exact h
    · simp at h
  | cons a l ih =>
    intro s p h
    rw [List.foldl_cons]
    apply ih
    rcases h with h | h
    · exact Or.inl ((mem_setAdd s a p).mpr (Or.inl h))
    · rcases List.mem_cons.mp h with rfl | h2
      · exact Or.inl ((mem_setAdd s p p).mpr (Or.inr rfl))
      · exact Or.inr h2

theorem getNextProxy_all_dead (pm : ProxyManager)
    (hidx : pm.currentIndex < pm.proxies.length)
    (hall : ∀ q ∈ pm.proxies, pm.maxFailures ≤ failuresOf pm q) :
    pm.getNextProxy = (some (pm.proxies.getD 0 ""),
      { pm with currentIndex := pm.currentIndex,
                proxyFailures := fun _ => 0,
                workingProxies := pm.proxies.foldl setAdd [] }) := by
  have hlen : 0 < pm.proxies.length := lt_of_le_of_lt (Nat.zero_le _) hidx
  have hscan := scanNext_all_dead pm.proxies (failuresOf pm) pm.maxFailures hall
    pm.proxies.length pm.currentIndex hidx
  have hmod : (pm.currentIndex + pm.proxies.length) % pm.proxies.length
      = pm.currentIndex := by
    rw [Nat.add_mod_right]
    exact Nat.mod_eq_of_lt hidx
  rw [hmod] at hscan
  have hne : ¬ pm.proxies.length = 0 := by omega
  simp [ProxyManager.getNextProxy, hne, hscan, hlen]

/-- C2: on a pool whose proxies have all reached the failure threshold, the
next `getNextProxy` call performs the bulk reset — every failure counter is
cleared and every proxy is restored to the working set — and returns the first
proxy of the sequence rather than the `null` (NoProxyAvailable) outcome. -/
theorem c2_bulk_reset (pm : ProxyManager)
    (hidx : pm.currentIndex < pm.proxies.length)
    (hall : ∀ q ∈ pm.proxies, pm.maxFailures ≤ failuresOf pm q) :
    pm.getNextProxy.1 = some (pm.proxies.getD 0 "") ∧
    pm.getNextProxy.1 ≠ none ∧
    (∀ q, failuresOf pm.getNextProxy.2 q = 0) ∧
    (∀ q ∈ pm.proxies, q ∈ pm.getNextProxy.2.workingProxies) := by
  have h := getNextProxy_all_dead pm hidx hall
  rw [h]
  exact ⟨rfl, by simp, fun q => rfl, fun q hq => mem_foldl_setAdd _ _ _ (Or.inr hq)⟩

/-- Witness for C2 at a concrete two-proxy pool with both counters at the
threshold. -/
theorem c2_bulk_reset_witness :
    (pmAllDead.currentIndex < pmAllDead.proxies.length ∧
      (∀ q ∈ pmAllDead.proxies, pmAllDead.maxFailures ≤ failuresOf pmAllDead q)) ∧
    (pmAllDead.getNextProxy.1 = some (pmAllDead.proxies.getD 0 "") ∧
      pmAllDead.getNextProxy.1 ≠ none ∧
      (∀ q, failuresOf pmAllDead.getNextProxy.2 q = 0) ∧
      (∀ q ∈ pmAllDead.proxies, q ∈ pmAllDead.getNextProxy.2.workingProxies)) :=
  ⟨⟨by decide, by decide⟩, c2_bulk_reset pmAllDead (by decide) (by decide)⟩

/-- C10: a bulk-resetting `getNextProxy` call leaves the cursor at its
pre-call value (the scan advances it exactly `length` positions, wrapping
around), returns element `0` of the sequence regardless of the cursor, and
the immediately following call returns the proxy at the old cursor position. -/
theorem c10_cursor_after_reset (pm : ProxyManager)
    (hidx : pm.currentIndex < pm.proxies.length)
    (hall : ∀ q ∈ pm.proxies, pm.maxFailures ≤ failuresOf pm q)
    (hpos : 0 < pm.maxFailures) :
    pm.getNextProxy.2.currentIndex = pm.currentIndex ∧
    pm.getNextProxy.1 = some (pm.proxies.getD 0 "") ∧
    pm.getNextProxy.2.getNextProxy.1 = some (pm.proxies.getD pm.currentIndex "") := by
  have h := getNextProxy_all_dead pm hidx hall
  rw [h]
  refine ⟨rfl, rfl, ?_⟩
  have hstep := getNextProxy_of_working
    { pm with currentIndex := pm.currentIndex,
              proxyFailures := fun _ => 0,
              workingProxies := pm.proxies.foldl setAdd [] } hidx hpos
  rw [hstep]

/-- Witness for C10 at a two-proxy pool at the threshold with the cursor on
the second proxy: the reset call returns `"a"`, the following call `"b"`. -/
theorem c10_cursor_after_reset_witness :
    (pmAllDeadAt1.currentIndex < pmAllDeadAt1.proxies.length ∧
      (∀ q ∈ pmAllDeadAt1.proxies,
        pmAllDeadAt1.maxFailures ≤ failuresOf pmAllDeadAt1 q) ∧
      0 < pmAllDeadAt1.maxFailures) ∧
    (pmAllDeadAt1.getNextProxy.2.currentIndex = pmAllDeadAt1.currentIndex ∧
      pmAllDeadAt1.getNextProxy.1 = some (pmAllDeadAt1.proxies.getD 0 "") ∧
      pmAllDeadAt1.getNextProxy.2.getNextProxy.1
        = some (pmAllDeadAt1.proxies.getD pmAllDeadAt1.currentIndex "")) :=
  ⟨⟨by decide, by decide, by decide⟩,
    c10_cursor_after_reset pmAllDeadAt1 (by decide) (by decide) (by decide)⟩

/-- C8: with the pool contents replaced by an empty record list,
`getNextProxy` returns the `null` (NoProxyAvailable) outcome and leaves the
state untouched — no wrapped-around cursor, no thrown error, no proxy. -/
theorem c8_empty_pool (pm : ProxyManager) (h : pm.proxies = []) :
    pm.getNextProxy = (none, pm) := by
  simp [ProxyManager.getNextProxy, h]

/-- Witness for C8 at a concrete emptied pool. -/
theorem c8_empty_pool_witness :
    pmEmptied.proxies = [] ∧ pmEmptied.getNextProxy = (none, pmEmptied) :=
  ⟨rfl, c8_empty_pool pmEmptied rfl⟩

/-! Failure-report lemmas and the exclusion property. -/

theorem reportProxyFailure_proxies (pm : ProxyManager) (p : String) :
    (pm.reportProxyFailure p).proxies = pm.proxies := by
  simp only [ProxyManager.reportProxyFailure]
  split <;> rfl

theorem reportProxyFailure_currentIndex (pm : ProxyManager) (p : String) :
    (pm.reportProxyFailure p).currentIndex = pm.currentIndex := by
  simp only [ProxyManager.reportProxyFailure]
  split <;> rfl

theorem reportProxyFailure_maxFailures (pm : ProxyManager) (p : String) :
    (pm.reportProxyFailure p).maxFailures = pm.maxFailures := by
  simp only [ProxyManager.reportProxyFailure]
  split <;> rfl

theorem reportProxyFailure_failuresOf_self (pm : ProxyManager) (p : String) :
    failuresOf (pm.reportProxyFailure p) p = failuresOf pm p + 1 := by
  simp only [ProxyManager.reportProxyFailure, failuresOf]
  split <;> simp

theorem reportProxyFailure_failuresOf_other (pm : ProxyManager) (p q : String)
    (h : q ≠ p) : failuresOf (pm.reportProxyFailure p) q = failuresOf pm q := by
  simp only [ProxyManager.reportProxyFailure, failuresOf]
  split <;> simp [h]

theorem reportProxyFailure_working (pm : ProxyManager) (p : String) :
    (pm.reportProxyFailure p).workingProxies =
      if pm.maxFailures ≤ failuresOf pm p + 1 then pm.workingProxies.erase p
      else pm.workingProxies := by
  simp only [ProxyManager.reportProxyFailure]
  by_cases h : pm.maxFailures ≤ failuresOf pm p + 1
  · rw [if_pos h, if_pos h]
  · rw [if_neg h, if_neg h]

theorem reportProxySuccess_failuresOf_other (pm : ProxyManager) (p q : String)
    (h : q ≠ p) : failuresOf (pm.reportProxySuccess p) q = failuresOf pm q := by
  simp only [ProxyManager.reportProxySuccess, failuresOf]
  simp [h]

theorem erase_erase_self (l : List String) (p : String) (hnd : l.Nodup) :
    (l.erase p).erase p = l.erase p := by
  apply List.erase_of_not_mem
  intro hmem
  exact ((List.Nodup.mem_erase_iff hnd).mp hmem).1 rfl

theorem failThrice_proxies (pm : ProxyManager) (p : String) :
    (failThrice pm p).proxies = pm.proxies := by
  unfold failThrice
  rw [reportProxyFailure_proxies, reportProxyFailure_proxies, reportProxyFailure_proxies]

theorem failThrice_currentIndex (pm : ProxyManager) (p : String) :
    (failThrice pm p).currentIndex = pm.currentIndex := by
  unfold failThrice
  rw [reportProxyFailure_currentIndex, reportProxyFailure_currentIndex,
    reportProxyFailure_currentIndex]

theorem failThrice_maxFailures (pm : ProxyManager) (p : String) :
    (failThrice pm p).maxFailures = pm.maxFailures := by
  unfold failThrice
  rw [reportProxyFailure_maxFailures, reportProxyFailure_maxFailures,
    reportProxyFailure_maxFailures]

theorem failThrice_failuresOf_self (pm : ProxyManager) (p : String) :
    failuresOf (failThrice pm p) p = failuresOf pm p + 3 := by
  unfold failThrice
  rw [reportProxyFailure_failuresOf_self, reportProxyFailure_failuresOf_self,
    reportProxyFailure_failuresOf_self]

theorem failThrice_working (pm : ProxyManager) (p : String) (hmax : pm.maxFailures = 3)
    (hnd : pm.workingProxies.Nodup) :
    (failThrice pm p).workingProxies = pm.workingProxies.erase p := by
  have hf1 : failuresOf (pm.reportProxyFailure p) p = failuresOf pm p + 1 :=
    reportProxyFailure_failuresOf_self pm p
  have hf2 : failuresOf ((pm.reportProxyFailure p).reportProxyFailure p) p
      = failuresOf pm p + 2 := by
    rw [reportProxyFailure_failuresOf_self, hf1]
  have hm1 : (pm.reportProxyFailure p).maxFailures = 3 := by
    rw [reportProxyFailure_maxFailures, hmax]
  have hm2 : ((pm.reportProxyFailure p).reportProxyFailure p).maxFailures = 3 := by
    rw [reportProxyFailure_maxFailures, hm1]
  unfold failThrice
  rw [reportProxyFailure_working, hf2, hm2, if_pos (by omega),
    reportProxyFailure_working, hf1, hm1, reportProxyFailure_working, hmax]
  by_cases h1 : (3 : Nat) ≤ failuresOf pm p + 1
  · rw [if_pos h1, if_pos (by omega), erase_erase_self _ _ (hnd.erase p),
      erase_erase_self _ _ hnd]
  · rw [if_neg h1]
    by_cases h2 : (3 : Nat) ≤ failuresOf pm p + 2
    · rw [if_pos h2, erase_erase_self _ _ hnd]
    · rw [if_neg h2]

theorem getNextProxy_some_of_ex (pm : ProxyManager)
    (hidx : pm.currentIndex < pm.proxies.length)
    (hex : ∃ q ∈ pm.proxies, failuresOf pm q < pm.maxFailures) :
    ∃ r j, pm.getNextProxy = (some r, { pm with currentIndex := j }) ∧
      failuresOf pm r < pm.maxFailures ∧ j < pm.proxies.length := by
  obtain ⟨r, j, hscan⟩ := scanNext_succeeds pm.proxies (failuresOf pm) pm.maxFailures
    pm.currentIndex hidx hex
  have hlen : 0 < pm.proxies.length := lt_of_le_of_lt (Nat.zero_le _) hidx
  have hne : ¬ pm.proxies.length = 0 := by omega
  have hspec := scanNext_some_spec pm.proxies (failuresOf pm) pm.maxFailures _ _ _ _ hscan
  exact ⟨r, j, by simp [ProxyManager.getNextProxy, hne, hscan], hspec.1, hspec.2 hlen⟩

theorem excluded_reportFailure (pm : ProxyManager) (p q : String)
    (h : Excluded pm p) : Excluded (pm.reportProxyFailure q) p := by
  obtain ⟨h1, h2⟩ := h
  constructor
  · rw [reportProxyFailure_maxFailures]
    by_cases hq : p = q
    · subst hq
      rw [reportProxyFailure_failuresOf_self]
      omega
    · rw [reportProxyFailure_failuresOf_other pm q p hq]
      exact h1
  · rw [reportProxyFailure_working]
    split
    · intro hmem
      exact h2 (List.mem_of_mem_erase hmem)
    · exact h2

theorem excluded_reportSuccess (pm : ProxyManager) (p q : String) (hq : q ≠ p)
    (h : Excluded pm p) : Excluded (pm.reportProxySuccess q) p := by
  obtain ⟨h1, h2⟩ := h
  constructor
  · rw [show (pm.reportProxySuccess q).maxFailures = pm.maxFailures from rfl,
      reportProxySuccess_failuresOf_other pm q p (fun he => hq he.symm)]
    exact h1
  · intro hmem
    rcases (mem_setAdd pm.workingProxies q p).mp hmem with hmem2 | rfl
    · exact h2 hmem2
    · exact hq rfl

theorem pminv_next (pm : ProxyManager) (p : String) (h : PMInv pm p)
    (hex : ∃ q ∈ pm.proxies, failuresOf pm q < pm.maxFailures) :
    PMInv pm.getNextProxy.2 p := by
  obtain ⟨hex1, hidx⟩ := h
  obtain ⟨q, hq, hfq⟩ := hex
  have hne : pm.proxies ≠ [] := List.ne_nil_of_mem hq
  rcases hidx with hemp | hidx
  · exact (hne hemp).elim
  · obtain ⟨r, j, hcall, _, hj⟩ := getNextProxy_some_of_ex pm hidx ⟨q, hq, hfq⟩
    rw [hcall]
    exact ⟨hex1, Or.inr hj⟩

theorem pminv_step (pm : ProxyManager) (p : String) (op : PMOp)
    (h : PMInv pm p) (hop : OpSafe p pm op) : PMInv (applyOp pm op) p := by
  cases op with
  | fail q =>
    refine ⟨excluded_reportFailure pm p q h.1, ?_⟩
    simp only [applyOp]
    rw [reportProxyFailure_proxies, reportProxyFailure_currentIndex]
    exact h.2
  | success q =>
    exact ⟨excluded_reportSuccess pm p q hop h.1, h.2⟩
  | next =>
    exact pminv_next pm p h hop

theorem pminv_ops (p : String) :
    ∀ (ops : List PMOp) (pm : ProxyManager), PMInv pm p → SafeOps p pm ops →
      PMInv (applyOps pm ops) p := by
  intro ops
  induction ops with
  | nil => intro pm h _; exact h
  | cons op ops ih =>
    intro pm h hsafe
    have heq : applyOps pm (op :: ops) = applyOps (applyOp pm op) ops := rfl
    rw [heq]
    exact ih (applyOp pm op) (pminv_step pm p op h hsafe.1) hsafe.2

/-- C3: after `reportProxyFailure(p)` runs `maxFailures = 3` times with no
intervening success report, `p` is out of the working set (and out of
`getWorkingProxyCount`), `getNextProxy` does not return `p` while some other
proxy is below the threshold, `p` stays excluded under any further safe
operations (no success report for `p`, no bulk reset), and `p` remains in the
underlying sequence. -/
theorem c3_exclusion (pm : ProxyManager) (p : String) (hmax : pm.maxFailures = 3)
    (hnd : pm.workingProxies.Nodup) (hmem : p ∈ pm.proxies)
    (hidx : pm.currentIndex < pm.proxies.length) :
    p ∉ (failThrice pm p).workingProxies ∧
    (failThrice pm p).workingProxies = pm.workingProxies.erase p ∧
    (failThrice pm p).getWorkingProxyCount = (pm.workingProxies.erase p).length ∧
    ((failThrice pm p).proxies = pm.proxies ∧ p ∈ (failThrice pm p).proxies) ∧
    failuresOf (failThrice pm p) p = failuresOf pm p + 3 ∧
    ((∃ q ∈ (failThrice pm p).proxies,
        failuresOf (failThrice pm p) q < (failThrice pm p).maxFailures) →
      (failThrice pm p).getNextProxy.1 ≠ some p) ∧
    (∀ ops, SafeOps p (failThrice pm p) ops →
      Excluded (applyOps (failThrice pm p) ops) p) := by
  have hw3 := failThrice_working pm p hmax hnd
  have hp3 := failThrice_proxies pm p
  have hf3 := failThrice_failuresOf_self pm p
  have hm3 : (failThrice pm p).maxFailures = 3 := by
    rw [failThrice_maxFailures, hmax]
  have hi3 : (failThrice pm p).currentIndex < (failThrice pm p).proxies.length := by
    rw [failThrice_currentIndex, hp3]
    exact hidx
  have hnotmem : p ∉ (failThrice pm p).workingProxies := by
    rw [hw3]
    intro hmem2
    exact ((List.Nodup.mem_erase_iff hnd).mp hmem2).1 rfl
  have hexcl : Excluded (failThrice pm p) p := by
    refine ⟨?_, hnotmem⟩
    rw [hm3, hf3]
    omega
  refine ⟨hnotmem, hw3, ?_, ⟨hp3, hp3 ▸ hmem⟩, hf3, ?_, ?_⟩
  · show (failThrice pm p).workingProxies.length = _
    rw [hw3]
  · intro hex
    obtain ⟨r, j, hcall, hfr, _⟩ := getNextProxy_some_of_ex (failThrice pm p) hi3 hex
    rw [hcall]
    intro hcontra
    have hrp : r = p := by simpa using hcontra
    subst hrp
    rw [hm3, hf3] at hfr
    omega
  · intro ops hsafe
    exact (pminv_ops p ops (failThrice pm p) ⟨hexcl, Or.inr hi3⟩ hsafe).1

/-- Witness for C3 at a fresh two-proxy pool, excluding proxy `"a"`. -/
theorem c3_exclusion_witness :
    (pmFresh.maxFailures = 3 ∧ pmFresh.workingProxies.Nodup ∧
      "a" ∈ pmFresh.proxies ∧ pmFresh.currentIndex < pmFresh.proxies.length) ∧
    ("a" ∉ (failThrice pmFresh "a").workingProxies ∧
      (failThrice pmFresh "a").workingProxies = pmFresh.workingProxies.erase "a" ∧
      (failThrice pmFresh "a").getWorkingProxyCount
        = (pmFresh.workingProxies.erase "a").length ∧
      ((failThrice pmFresh "a").proxies = pmFresh.proxies ∧
        "a" ∈ (failThrice pmFresh "a").proxies) ∧
      failuresOf (failThrice pmFresh "a") "a" = failuresOf pmFresh "a" + 3 ∧
      ((∃ q ∈ (failThrice pmFresh "a").proxies,
          failuresOf (failThrice pmFresh "a") q < (failThrice pmFresh "a").maxFailures) →
        (failThrice pmFresh "a").getNextProxy.1 ≠ some "a") ∧
      (∀ ops, SafeOps "a" (failThrice pmFresh "a") ops →
        Excluded (applyOps (failThrice pmFresh "a") ops) "a")) :=
  ⟨⟨rfl, by decide, by decide, by decide⟩,
    c3_exclusion pmFresh "a" rfl (by decide) (by decide) (by decide)⟩

/-! Deduplication of ingested proxies. -/

theorem dedupGo_nodup_keys :
    ∀ (l : List JProxy) (seen : List String),
      ((dedupGo l seen).map proxyKey).Nodup ∧
      (∀ k ∈ (dedupGo l seen).map proxyKey, k ∉ seen) := by
  intro l
  induction l with
  | nil => intro seen; simp [dedupGo]
  | cons p rest ih =>
    intro seen
    rw [dedupGo]
    by_cases h : proxyKey p ∈ seen
    · rw [if_pos h]
      exact ih seen
    · rw [if_neg h]
      obtain ⟨ih1, ih2⟩ := ih (proxyKey p :: seen)
      constructor
      · rw [List.map_cons, List.nodup_cons]
        refine ⟨?_, ih1⟩
        intro hmem
        exact ih2 _ hmem (List.mem_cons_self _ _)
      · intro k hk
        rw [List.map_cons] at hk
        rcases List.mem_cons.mp hk with rfl | hk2
        · exact h
        · intro hks
          exact ih2 _ hk2 (List.mem_cons_of_mem _ hks)

/-- C6 counterexample: the `src/index.js` `fetchProxies` pipeline performs no
deduplication, so when GeoNode and ProxyScrape both report the http proxy
`1.2.3.4:80` the resulting pool contains the identity `http://1.2.3.4:80`
twice. -/
theorem c6_counterexample :
    ¬ (((fetchProxiesIndexJs [⟨"1.2.3.4", 80, "US", "elite", ["http"]⟩]
        (fun proto => if proto = "http" then "1.2.3.4:80" else "")).map
          proxyKey).Nodup) := by
  decide

/-- C6 amended: the `src/unnamed/part_000` `fetchProxies` deduplication stage
produces a pool with no two records sharing an identity key, for every input
record list; the `src/index.js` variant has no such stage. -/
theorem c6_dedup_amended (l : List JProxy) :
    ((removeDuplicateProxies l).map proxyKey).Nodup :=
  (dedupGo_nodup_keys l []).1

/-! Watch-session retry lemmas. -/

theorem retryFetchAux_all_false (outcome : Nat → Bool) (maxR : Nat) :
    ∀ fuel attempt, (∀ i, outcome i = false) → 1 ≤ fuel → attempt + fuel = maxR →
      retryFetchAux outcome maxR attempt fuel
        = (false, fuel, List.replicate (fuel - 1) RETRY_SLEEP_MS) := by
  intro fuel
  induction fuel with
  | zero => intro attempt _ h1 _; omega
  | succ n ih =>
    intro attempt hout _ hsum
    rw [retryFetchAux, hout attempt]
    simp only [Bool.false_eq_true, if_false]
    match n, hsum with
    | 0, hsum =>
      rw [if_pos (by omega)]
      simp
    | m + 1, hsum =>
      rw [if_neg (by omega)]
      rw [ih (attempt + 1) hout (by omega) (by omega)]
      simp [List.replicate_succ]

theorem retryFetchAux_fst_false (outcome : Nat → Bool) (maxR : Nat) :
    ∀ fuel attempt, (∀ i, i < maxR → outcome i = false) → attempt + fuel ≤ maxR →
      (retryFetchAux outcome maxR attempt fuel).1 = false := by
  intro fuel
  induction fuel with
  | zero => intro attempt _ _; rfl
  | succ n ih =>
    intro attempt hout hsum
    rw [retryFetchAux, hout attempt (by omega)]
    simp only [Bool.false_eq_true, if_false]
    by_cases hlast : attempt = maxR - 1
    · rw [if_pos hlast]
    · rw [if_neg hlast]
      exact ih (attempt + 1) hout (by omega)

/-- C5: when the quick check and agent construction pass but every primary
fetch fails transiently, the watch session issues exactly `MAX_RETRIES = 3`
fetch attempts, sleeps the fixed `RETRY_SLEEP_MS` between consecutive
attempts, and reports failure exactly once (the single returned `false`). -/
theorem c5_bounded_retries (env : SessionEnv) (hp : env.probeOk = true)
    (ha : env.agentOk = true) (hfail : ∀ i, env.fetchOutcome i = false) :
    MAX_RETRIES = 3 ∧
    watchVideo env = ⟨false, MAX_RETRIES, [RETRY_SLEEP_MS, RETRY_SLEEP_MS]⟩ := by
  have hr : retryFetch env.fetchOutcome MAX_RETRIES
      = (false, 3, [RETRY_SLEEP_MS, RETRY_SLEEP_MS]) := by
    rw [retryFetch, show MAX_RETRIES = 3 from rfl]
    rw [retryFetchAux_all_false env.fetchOutcome 3 3 0 hfail (by omega) (by omega)]
    rfl
  refine ⟨rfl, ?_⟩
  rw [watchVideo, watchVideoTry, if_neg (by simp [hp]), if_neg (by simp [ha]), hr]
  rfl

/-- Witness for C5 at the always-timing-out session environment. -/
theorem c5_bounded_retries_witness :
    (envTimeout.probeOk = true ∧ envTimeout.agentOk = true ∧
      (∀ i, envTimeout.fetchOutcome i = false)) ∧
    (MAX_RETRIES = 3 ∧
      watchVideo envTimeout = ⟨false, MAX_RETRIES, [RETRY_SLEEP_MS, RETRY_SLEEP_MS]⟩) :=
  ⟨⟨rfl, rfl, fun _ => rfl⟩, c5_bounded_retries envTimeout rfl rfl (fun _ => rfl)⟩

/-- C7: every per-proxy failure mode makes the session return the boolean
`false` instead of letting an exception escape: a failed quick check returns
immediately with zero primary fetches, a null agent returns `false`, a fetch
that fails through all retries returns `false`, and every thrown error is
turned into `false` by the surrounding catch. -/
theorem c7_failures_recovered (env : SessionEnv) :
    (env.probeOk = false → watchVideo env = ⟨false, 0, []⟩) ∧
    (env.probeOk = true → env.agentOk = false → watchVideo env = ⟨false, 0, []⟩) ∧
    ((∀ i, i < MAX_RETRIES → env.fetchOutcome i = false) →
      (watchVideo env).result = false) ∧
    (∀ e, watchVideoTry env = .error e → (watchVideo env).result = false) := by
  refine ⟨?_, ?_, ?_, ?_⟩
  · intro hp
    rw [watchVideo, watchVideoTry, if_pos hp]
  · intro hp ha
    rw [watchVideo, watchVideoTry, if_neg (by simp [hp]), if_pos ha]
  · intro hout
    by_cases hp : env.probeOk = false
    · rw [watchVideo, watchVideoTry, if_pos hp]
    · by_cases ha : env.agentOk = false
      · rw [watchVideo, watchVideoTry, if_neg hp, if_pos ha]
      · rcases hrf : retryFetch env.fetchOutcome MAX_RETRIES with ⟨b, n, d⟩
        have hb : b = false := by
          have hfst := retryFetchAux_fst_false env.fetchOutcome MAX_RETRIES MAX_RETRIES 0
            hout (by omega)
          rw [retryFetch] at hrf
          rw [hrf] at hfst
          exact hfst
        subst hb
        rw [watchVideo, watchVideoTry, if_neg hp, if_neg ha, hrf]
  · intro e he
    rcases e with ⟨n, d⟩
    rw [watchVideo, he]

/-- Witness for C7: the probe-failure environment returns `false` with zero
fetches, and the always-timing-out environment reports `false`. -/
theorem c7_failures_recovered_witness :
    watchVideo envProbeFail = ⟨false, 0, []⟩ ∧
    (watchVideo envTimeout).result = false :=
  ⟨(c7_failures_recovered envProbeFail).1 rfl,
    (c7_failures_recovered envTimeout).2.2.1 (fun _ _ => rfl)⟩

/-! Orchestrator loop lemmas. -/

theorem sessionStep_views (sr : Nat → Bool) (s : Orch) :
    (sessionStep sr s).views = if sr s.sessions = true then s.views + 1 else s.views := by
  by_cases h : sr s.sessions = true
  · simp [sessionStep, h]
  · simp [sessionStep, h]

theorem loopIter_views (sr : Nat → Bool) (fr : Nat → List String) (s s2 : Orch)
    (h : loopIter sr fr s = some s2) :
    s.views ≤ s2.views ∧ s2.views ≤ s.views + 1 ∧
    (s2.views = s.views + 1 ↔ (s.consec < FAILURE_REFRESH_THRESHOLD ∧
      s.idx < s.proxies.length ∧ sr s.sessions = true)) := by
  unfold loopIter at h
  by_cases hc : FAILURE_REFRESH_THRESHOLD ≤ s.consec
  · rw [if_pos hc] at h
    injection h with h
    subst h
    refine ⟨le_refl _, by simp [refreshState], ?_⟩
    constructor
    · intro habs
      have heq : s.views = s.views + 1 := habs
      omega
    · rintro ⟨h1, -, -⟩
      omega
  · rw [if_neg hc] at h
    cases hget : s.proxies[s.idx]? with
    | none =>
      rw [hget] at h
      exact absurd h (by simp)
    | some prx =>
      rw [hget] at h
      have hidx : s.idx < s.proxies.length := by
        by_contra hge
        rw [List.getElem?_eq_none (by omega)] at hget
        exact absurd hget (by simp)
      have hv : s2.views = if sr s.sessions = true then s.views + 1 else s.views := by
        by_cases hrt : MAX_PROXIES_TO_TRY ≤ (sessionStep sr s).tried
        · rw [if_pos hrt] at h
          injection h with h
          subst h
          exact sessionStep_views sr s
        · rw [if_neg hrt] at h
          injection h with h
          subst h
          exact sessionStep_views sr s
      by_cases hs : sr s.sessions = true
      · rw [if_pos hs] at hv
        refine ⟨by omega, by omega, ?_⟩
        constructor
        · intro _
          exact ⟨by omega, hidx, hs⟩
        · intro _
          omega
      · rw [if_neg hs] at hv
        refine ⟨by omega, by omega, ?_⟩
        constructor
        · intro habs
          omega
        · rintro ⟨-, -, hss⟩
          exact absurd hss hs

theorem mainLoop_views (target : Nat) (sr : Nat → Bool) (fr : Nat → List String) :
    ∀ (fuel : Nat) (s0 : Orch), s0.views ≤ target →
      s0.views ≤ (mainLoop target sr fr fuel s0).state.views ∧
      (mainLoop target sr fr fuel s0).state.views ≤ target ∧
      (∀ s2, mainLoop target sr fr fuel s0 = .finished s2 → s2.views = target) := by
  intro fuel
  induction fuel with
  | zero =>
    intro s0 h0
    refine ⟨le_refl _, h0, ?_⟩
    intro s2 hcontra
    exact absurd hcontra (by simp [mainLoop])
  | succ n ih =>
    intro s0 h0
    rw [mainLoop]
    by_cases hv : s0.views < target
    · rw [if_pos hv]
      cases hit : loopIter sr fr s0 with
      | none =>
        refine ⟨le_refl _, h0, ?_⟩
        intro s2 hcontra
        exact absurd hcontra (by simp)
      | some s1 =>
        obtain ⟨hs1, hs2, -⟩ := loopIter_views sr fr s0 s1 hit
        have h1 : s1.views ≤ target := by omega
        obtain ⟨ih1, ih2, ih3⟩ := ih s1 h1
        exact ⟨le_trans hs1 ih1, ih2, ih3⟩
    · rw [if_neg hv]
      have heq : s0.views = target := by omega
      refine ⟨le_refl _, le_of_eq heq, ?_⟩
      intro s2 hfin
      injection hfin with hfin
      subst hfin
      exact heq

/-- C4: `successfulViews` moves by at most one per iteration, increases by
exactly one precisely when a watch session ran and succeeded, never decreases,
never exceeds the requested target anywhere along the run, and the loop exits
normally exactly when `successfulViews` equals the target (a normal exit
carries `views = target`, and a state with `views = target` exits at once). -/
theorem c4_views_monotone (target fuel : Nat) (sr : Nat → Bool)
    (fr : Nat → List String) (s0 : Orch) (h0 : s0.views ≤ target) :
    (∀ s s2, loopIter sr fr s = some s2 →
      (s.views ≤ s2.views ∧ s2.views ≤ s.views + 1 ∧
        (s2.views = s.views + 1 ↔ (s.consec < FAILURE_REFRESH_THRESHOLD ∧
          s.idx < s.proxies.length ∧ sr s.sessions = true)))) ∧
    s0.views ≤ (mainLoop target sr fr fuel s0).state.views ∧
    (mainLoop target sr fr fuel s0).state.views ≤ target ∧
    (∀ s2, mainLoop target sr fr fuel s0 = .finished s2 → s2.views = target) ∧
    (∀ s, s.views = target → mainLoop target sr fr (fuel + 1) s = .finished s) := by
  obtain ⟨h1, h2, h3⟩ := mainLoop_views target sr fr fuel s0 h0
  refine ⟨fun s s2 h => loopIter_views sr fr s s2 h, h1, h2, h3, ?_⟩
  intro s hs
  rw [mainLoop, if_neg (by omega)]

/-- Witness for C4: a run with target 2 over an always-succeeding session. -/
theorem c4_views_monotone_witness :
    (c4Start.views ≤ 2) ∧
    ((∀ s s2, loopIter (fun _ => true) (fun _ => []) s = some s2 →
      (s.views ≤ s2.views ∧ s2.views ≤ s.views + 1 ∧
        (s2.views = s.views + 1 ↔ (s.consec < FAILURE_REFRESH_THRESHOLD ∧
          s.idx < s.proxies.length ∧ (fun _ : Nat => true) s.sessions = true)))) ∧
    c4Start.views
      ≤ (mainLoop 2 (fun _ => true) (fun _ => []) 5 c4Start).state.views ∧
    (mainLoop 2 (fun _ => true) (fun _ => []) 5 c4Start).state.views ≤ 2 ∧
    (∀ s2, mainLoop 2 (fun _ => true) (fun _ => []) 5 c4Start = .finished s2 →
      s2.views = 2) ∧
    (∀ s, s.views = 2 → mainLoop 2 (fun _ => true) (fun _ => []) (5 + 1) s
      = .finished s)) :=
  ⟨by decide, c4_views_monotone 2 5 (fun _ => true) (fun _ => []) c4Start (by decide)⟩

/-- C9: evaluating the orchestrator at a run whose sessions all fail and whose
refreshes all return the empty list: the run does reach a terminal outcome
within finitely many iterations (22 of the 30 budgeted), but that outcome is
the uncaught-TypeError crash of reading `proxies[0]` from the emptied pool on
the iteration after the refresh — not a counted give-up condition. -/
theorem c9_empty_refresh_crash :
    mainLoop 1 (fun _ => false) (fun _ => []) 30 c9Start
      = .crashed ⟨0, 0, 0, 0, [], 20, 1⟩ ∧
    (mainLoop 1 (fun _ => false) (fun _ => []) 30 c9Start).isCrashed = true := by
  constructor
  · rfl
  · rfl

end ViewsYT
